import Mathlib

/-!
Verification development for `robomimic/models/perceiver_nets/perceiver_obs.py`.

The file shallowly embeds the tensor-level computations of the Perceiver
vision transformer (patch embedding, adaptive token sampling, positional and
temporal embeddings, masked-patch labels, attention masking, checkpoint
filtering, and the model factory path) as executable Lean definitions over
`Nat`, `Int` and `ℚ`, and proves or refutes the frozen claims about them.

Pixel values and embedding entries are modelled as rationals; tensors are
modelled as index functions together with their (explicitly tracked) sizes.
Python-level failures (TypeError, AttributeError, NameError, RuntimeError,
ZeroDivisionError, NotImplementedError) are modelled with `Except`.
-/

/-- Python exceptions that the embedded code can raise. -/
inductive PyError
  | typeError
  | zeroDivisionError
  | notImplementedError
  | nameError
  | attributeError
  | runtimeError
  deriving DecidableEq, Repr

/-- Truncation toward zero of a rational, as performed by `Tensor.long()`
(`(img_unnorm_patch * 255).long()` in `mask_tokens`).  For a rational
`num/den` with `den > 0`, integer division of `num` by `den` truncates
toward zero. -/
def truncInt (q : ℚ) : ℤ := q.num / (q.den : ℤ)

/-- `timm.models.layers.to_2tuple`: an int becomes a pair, a pair stays. -/
def to_2tuple : Nat ⊕ (Nat × Nat) → Nat × Nat
  | Sum.inl n => (n, n)
  | Sum.inr p => p

/-! ## Strided 2-D convolution (`torch.nn.Conv2d` / `F.conv2d`, padding 0)

Both convolutions of the source use zero padding (`nn.Conv2d` default in
`PatchEmbed.proj`, explicit `padding=0` in `mask_tokens`), so padding is not
a parameter here. -/

/-- Output spatial size of a convolution along one dimension with padding 0:
`(n - k) // s + 1`.  PyTorch raises a RuntimeError when the kernel exceeds
the input ("Kernel size can't be greater than actual input size"). -/
def convOutSize (n k s : Nat) : Except PyError Nat :=
  if k ≤ n then .ok ((n - k) / s + 1) else .error .runtimeError

/-- Value of a grouped strided convolution (padding 0) at output channel `o`
and output position `(r, s)`.  `x : channel → row → col → ℚ` is the input,
`w : outCh → inChPerGroup → ki → kj → ℚ` the kernel, `b` the bias.
Output channel `o` reads input channels of its group only, exactly as
`F.conv2d(..., groups=g)` does. -/
def conv2dVal (x : Nat → Nat → Nat → ℚ) (w : Nat → Nat → Nat → Nat → ℚ)
    (b : Nat → ℚ) (cin cout kh kw sh sw groups : Nat)
    (o r s : Nat) : ℚ :=
  let cinG := cin / groups
  let coutG := cout / groups
  let base := (o / coutG) * cinG
  b o + ∑ c ∈ Finset.range cinG, ∑ i ∈ Finset.range kh, ∑ j ∈ Finset.range kw,
    w o c i j * x (base + c) (r * sh + i) (s * sw + j)

/-! ## `PatchEmbed` (source lines 175-206)

`img_size` and `patch_size` go through `to_2tuple`;
`num_patches = (img_size[1] // patch_size[1]) * (img_size[0] // patch_size[0])`;
`proj` is `nn.Conv2d(in_chans, embed_dim, kernel_size=patch_size,
stride=patch_size)`. -/

structure PatchEmbedCfg where
  img_size : Nat × Nat
  patch_size : Nat × Nat
  in_chans : Nat
  embed_dim : Nat

/-- `PatchEmbed.__init__`: the `num_patches` computation divides by the patch
sizes, so a zero patch size raises ZeroDivisionError (line 189). -/
def patchEmbedInit (img_size patch_size : Nat ⊕ (Nat × Nat))
    (in_chans embed_dim : Nat) : Except PyError PatchEmbedCfg :=
  let isz := to_2tuple img_size
  let psz := to_2tuple patch_size
  if psz.1 = 0 ∨ psz.2 = 0 then .error .zeroDivisionError
  else .ok ⟨isz, psz, in_chans, embed_dim⟩

/-- `num_patches` as stored by `PatchEmbed.__init__` (line 189). -/
def PatchEmbedCfg.num_patches (c : PatchEmbedCfg) : Nat :=
  (c.img_size.2 / c.patch_size.2) * (c.img_size.1 / c.patch_size.1)

/-- Spatial output shape of `PatchEmbed.forward` on an `H × W` input:
the shape of `self.proj(x)` with kernel = stride = patch size, padding 0. -/
def patchEmbedOutShape (c : PatchEmbedCfg) (H W : Nat) :
    Except PyError (Nat × Nat) := do
  let oh ← convOutSize H c.patch_size.1 c.patch_size.1
  let ow ← convOutSize W c.patch_size.2 c.patch_size.2
  return (oh, ow)

/-- Value of `PatchEmbed.forward` at output channel `o`, patch position
`(r, s)`: the patch-size convolution of the input with the projection
weight (groups = 1). -/
def patchEmbedVal (c : PatchEmbedCfg) (w : Nat → Nat → Nat → Nat → ℚ)
    (b : Nat → ℚ) (x : Nat → Nat → Nat → ℚ) (o r s : Nat) : ℚ :=
  conv2dVal x w b c.in_chans c.embed_dim c.patch_size.1 c.patch_size.2
    c.patch_size.1 c.patch_size.2 1 o r s

/-- The set of input pixel coordinates read by patch `(r, s)` when kernel =
stride = `(ph, pw)`: the half-open rectangle starting at `(r*ph, s*pw)`. -/
def patchRect (ph pw r s : Nat) : Set (Nat × Nat) :=
  {p | r * ph ≤ p.1 ∧ p.1 < r * ph + ph ∧ s * pw ≤ p.2 ∧ p.2 < s * pw + pw}

/-! ## Adaptive token sampling (`visual_embed`, source lines 367-532)

At lines 381-383 the source builds `x_mask = torch.ones_like(_x.sum(dim=1) != 0)
.float()[:, None]`, interpolated to the patch grid — because of `ones_like`
every entry of this grid is `1`.  The sampling code that consumes it
(lines 385-387 and 440-481) is written for a general 0/1 mask grid, and we
embed it over an arbitrary mask grid of naturals (the mask is a `long`
tensor in the source; all reachable entries are 0 or 1). -/

/-- The mask grid the source actually builds: all ones (`torch.ones_like`
at line 381, interpolated to the `H × W` patch grid at line 383). -/
def onesMask (H W : Nat) : List (List Nat) :=
  List.replicate H (List.replicate W 1)

/-- A letterbox mask grid: entry `(r, c)` is 1 exactly when `r < h ∧ c < w`.
This is the shape of mask the sampling code is written for (valid patches in
the top-left `h × w` corner, padding elsewhere). -/
def rectMask (H W h w : Nat) : List (List Nat) :=
  (List.range H).map fun r =>
    (List.range W).map fun c => if r < h ∧ c < w then 1 else 0

/-- `x_h = x_mask[:, 0].sum(dim=1)[:, 0]` (line 385): the sum of column 0 of
an example's mask grid. -/
def x_h (mg : List (List Nat)) : Nat := (mg.map fun row => row.getD 0 0).sum

/-- `x_w = x_mask[:, 0].sum(dim=2)[:, 0]` (line 387): the sum of row 0 of an
example's mask grid. -/
def x_w (mg : List (List Nat)) : Nat := (mg.headD []).sum

/-- `eff = x_h * x_w` (lines 440/443), one entry per example. -/
def effList (mgs : List (List (List Nat))) : List Nat :=
  mgs.map fun mg => x_h mg * x_w mg

/-- `max_image_len = min(eff.max(), max_image_len)` (line 444), for a
non-negative integer argument. -/
def finalMaxImageLen (effs : List Nat) (maxImageLen : Nat) : Nat :=
  min (effs.foldr max 0) maxImageLen

/-- `valid_idx = x_mask.nonzero()` (line 447) restricted to one example's
flattened mask: the indices of the nonzero entries, in increasing order,
starting the count at `k`. -/
def validIdxFrom (k : Nat) : List Nat → List Nat
  | [] => []
  | a :: t => (if a ≠ 0 then [k] else []) ++ validIdxFrom (k + 1) t

def validIdx (m : List Nat) : List Nat := validIdxFrom 0 m

/-- `non_valid_idx = (1 - x_mask).nonzero()` (line 449) for one example:
indices where `1 - entry` is nonzero (for a 0/1 mask, the zero entries). -/
def nonValidIdxFrom (k : Nat) : List Nat → List Nat
  | [] => []
  | a :: t => (if 1 - a ≠ 0 then [k] else []) ++ nonValidIdxFrom (k + 1) t

def nonValidIdx (m : List Nat) : List Nat := nonValidIdxFrom 0 m

/-- `x_mask = x_mask.flatten(1)` (line 426): one example's mask grid in
row-major order. -/
def flattenGrid (mg : List (List Nat)) : List Nat := mg.flatten

/-- Input validation performed by `torch.multinomial(torch.ones(numCat),
numSamples, replacement)`: it raises `RuntimeError` unless `numSamples > 0`,
the weight vector is non-empty, and (without replacement) `numSamples` does
not exceed the number of categories. -/
def multinomialCheck (numCat numSamples : Nat) (replacement : Bool) :
    Except PyError Unit :=
  if numSamples = 0 then .error .runtimeError
  else if numCat = 0 then .error .runtimeError
  else if replacement = false ∧ numCat < numSamples then .error .runtimeError
  else .ok ()

/-- One iteration of the selection loop (lines 461-473) for the example with
flattened mask `m` and final budget `L`.  `validChoice` and `padChoice` are
the index outcomes of the two `torch.multinomial` draws (`valid_choice`,
sampled without replacement; `pad_choice`, sampled with replacement); the
loop branches on `p = max_image_len - v ≤ 0`. -/
def selectExample (m : List Nat) (L : Nat) (validChoice padChoice : List Nat) :
    List Nat :=
  if (L : ℤ) - (validIdx m).length ≤ 0 then
    validChoice.map fun c => (validIdx m).getD c 0
  else
    validIdx m ++ padChoice.map fun c => (nonValidIdx m).getD c 0

/-- The same loop iteration with the `torch.multinomial` argument checks
made explicit. -/
def selectExampleChecked (m : List Nat) (L : Nat)
    (validChoice padChoice : List Nat) : Except PyError (List Nat) :=
  if (L : ℤ) - (validIdx m).length ≤ 0 then
    (multinomialCheck (validIdx m).length L false).map
      fun _ => validChoice.map fun c => (validIdx m).getD c 0
  else
    (multinomialCheck (nonValidIdx m).length (L - (validIdx m).length) true).map
      fun _ => validIdx m ++ padChoice.map fun c => (nonValidIdx m).getD c 0

/-- Per-example row of the attention mask returned by `visual_embed` for a
4-D input: the mask values gathered at the selected positions (line 481)
with a leading 1 for the class token (line 518). -/
def xMaskRow (m : List Nat) (sel : List Nat) : List Nat :=
  1 :: sel.map fun pos => m.getD pos 0

/-- Per-example token sequence after the class token is prepended
(lines 496-498): the class token followed by the tokens gathered at the
selected flattened positions (line 479). -/
def tokensRow {α : Type} (cls : α) (toks : Nat → α) (sel : List Nat) : List α :=
  cls :: sel.map toks

/-! ## Attention masking (`Attention.forward`, source lines 108-131)

`attn = (q @ k.transpose(-2, -1)) * self.scale` is an arbitrary matrix of
logits here; `mask.bool()` makes a key position "kept" exactly when its mask
entry is nonzero, and `masked_fill(~mask[:, None, None, :], float("-inf"))`
broadcasts the same key mask over every head and every query row.  `-inf`
logits are modelled as `none`; `exp(-inf) = 0` holds exactly both in the
reals and in IEEE float arithmetic, and the finite part of the exponential
stays an abstract positive function `e`. -/

/-- One row of `attn.masked_fill(~mask.bool()[:, None, None, :], -inf)`
(lines 122-124). -/
def maskedFill (mask : List Nat) (row : List ℚ) : List (Option ℚ) :=
  List.zipWith (fun q mk => if mk ≠ 0 then some q else none) row mask

/-- Exponential on extended logits: `exp(-inf) = 0`, finite values through
`e`. -/
def expExt (e : ℚ → ℚ) : Option ℚ → ℚ
  | none => 0
  | some q => e q

/-- `attn.softmax(dim=-1)` (line 125) on one row of extended logits. -/
def softmaxRow (e : ℚ → ℚ) (r : List (Option ℚ)) : List ℚ :=
  r.map fun o => expExt e o / (r.map (expExt e)).sum

/-- Post-softmax attention weights of one (head, query) row: softmax of the
masked logits.  The mask is shared by all heads and queries of the example. -/
def attnRow (e : ℚ → ℚ) (mask : List Nat) (logits : List ℚ) : List ℚ :=
  softmaxRow e (maskedFill mask logits)

/-! ## Temporal embedding (video path of `visual_embed`, lines 508-516)

A 5-D input of shape `[B0, T, C, Himg, Wimg]` is flattened to `B0*T` images;
after the class token, the tokens are viewed as `[B0, T*(L+1), D]`
(line 515) and line 516 adds
`torch.repeat_interleave(self.temporal_embed[:, :self.max_frames],
x.size(1) // ori_shape[1], dim=1)` in place.  The added tensor has middle
size `max_frames * ((T*(L+1)) // T)`, and the in-place broadcast requires
that size to equal `T*(L+1)` (or to be 1), otherwise PyTorch raises a
RuntimeError: the addition only works when the clip length `T` equals
`max_frames`. -/

/-- Source coordinate of `F.interpolate(..., mode="bilinear")` along one
dimension.  `align_corners=True`: `i * (in-1)/(out-1)` (0 when the output
has a single cell); `align_corners=False`: `(i + 1/2) * in/out - 1/2`,
clamped below at 0. -/
def srcCoord (alignCorners : Bool) (inS outS i : Nat) : ℚ :=
  if alignCorners then
    if outS ≤ 1 then 0 else (i : ℚ) * ((inS : ℚ) - 1) / ((outS : ℚ) - 1)
  else
    max 0 (((i : ℚ) + 1 / 2) * ((inS : ℚ) / (outS : ℚ)) - 1 / 2)

/-- One-dimensional linear interpolation of a grid `g` at source coordinate
`src`: PyTorch gathers `floor(src)` and the next index clamped into the
grid, with weight `src - floor(src)`.  In every use below
`0 ≤ src ≤ inS - 1`. -/
def interp1D (g : Nat → ℚ) (inS : Nat) (src : ℚ) : ℚ :=
  let i0 : Nat := ⌊src⌋.toNat
  let i1 : Nat := min (i0 + 1) (inS - 1)
  let lam : ℚ := src - (i0 : ℚ)
  (1 - lam) * g i0 + lam * g i1

/-- Separable bilinear interpolation of a 2-D grid, as computed by
`F.interpolate(..., mode="bilinear")`. -/
def interpBilinear (g : Nat → Nat → ℚ) (inH inW outH outW : Nat)
    (alignCorners : Bool) (r c : Nat) : ℚ :=
  interp1D
    (fun a => interp1D (fun b => g a b) inW (srcCoord alignCorners inW outW c))
    inH (srcCoord alignCorners inH outH r)

/-- Grid cell `(a, b)`, channel `d`, of
`self.pos_embed[:, 1:, :].transpose(1, 2).view(1, C, patch_dim, patch_dim)`
(lines 391-395): row `1 + (a * patch_dim + b)` of `pos_embed`. -/
def spatialPos (pe : Nat → Nat → ℚ) (pd d a b : Nat) : ℚ :=
  pe (1 + (a * pd + b)) d

/-- `F.pad(t, (0, W - w, 0, H - h))` (lines 399-404): zero-pad on the right
and bottom; entries inside the `h × w` corner keep their value. -/
def padRB (g : Nat → Nat → ℚ) (h w : Nat) (r c : Nat) : ℚ :=
  if r < h ∧ c < w then g r c else 0

/-- Per-example positional grid (lines 397-408): the spatial position grid
interpolated (`align_corners=True`) to the example's `(h, w)` extent and
zero-padded to the full patch grid. -/
def posEmbedGrid (pe : Nat → Nat → ℚ) (pd h w : Nat) (d r c : Nat) : ℚ :=
  padRB (fun a b => interpBilinear (spatialPos pe pd d) pd pd h w true a b)
    h w r c

/-- `pos_embed = pos_embed.flatten(2).transpose(1, 2)` (line 411): sequence
position `j` is grid cell `(j / W, j % W)`. -/
def posEmbedFlat (pe : Nat → Nat → ℚ) (pd h w W : Nat) (j d : Nat) : ℚ :=
  posEmbedGrid pe pd h w d (j / W) (j % W)

/-- The positional sequence after the gather at the selected positions
(line 485) and the class-token row `pos_embed[:, 0, :]` prepended
(lines 501-503). -/
def posSeq (pe : Nat → Nat → ℚ) (pd h w W : Nat) (sel : List Nat)
    (j d : Nat) : ℚ :=
  if j = 0 then pe 0 d else posEmbedFlat pe pd h w W (sel.getD (j - 1) 0) d

/-- `x = x + pos_embed` (line 506), after the class token was concatenated
to the tokens (line 498). -/
def addPosEmbed (tok pos : Nat → Nat → ℚ) (j d : Nat) : ℚ := tok j d + pos j d

/-! ## Masked patch labels (`mask_tokens`, lines 333-365; call site 429)

`img_unnorm = orig_image * 0.5 + 0.5`; a depthwise (`groups=3`) average
convolution with kernel = stride = `(ph, pw)` computes per-patch per-channel
pixel means; `labels = (img_unnorm_patch * 255).long()` truncates toward
zero; positions not chosen by the Bernoulli(0.15) draw get label `-100`.
Line 363 then executes `feats[indices_replaced] = self.mask_token.to(feats)`
— but no `mask_token` attribute is ever assigned on
`PerceiverVisionTransformer` (not in `__init__`, nowhere else in the
module), so this access raises AttributeError on every call. -/

/-- `img_unnorm = orig_image * 0.5 + 0.5` (line 337). -/
def img_unnorm (img : Nat → Nat → Nat → ℚ) (c i j : Nat) : ℚ :=
  img c i j * (1 / 2) + 1 / 2

/-- `img_unnorm_patch` (lines 339-347): `F.conv2d` of the unnormalised
image with the constant `1/(ph*pw)` weight, no bias, stride `(ph, pw)`,
`padding=0`, `groups=3`. -/
def img_unnorm_patch (img : Nat → Nat → Nat → ℚ) (ph pw : Nat)
    (c r s : Nat) : ℚ :=
  conv2dVal (img_unnorm img) (fun _ _ _ _ => 1 / (ph * pw : ℚ)) (fun _ => 0)
    3 3 ph pw ph pw 3 c r s

/-- Labels before masking (lines 348-352): patch index `p` in row-major
order over the `oh × ow` patch grid, channel `c`,
`(img_unnorm_patch * 255).long()`. -/
def rawLabel (img : Nat → Nat → Nat → ℚ) (ph pw ow : Nat) (p c : Nat) : ℤ :=
  truncInt (img_unnorm_patch img ph pw c (p / ow) (p % ow) * 255)

/-- `labels[~masked_indices] = -100` (lines 355-357). -/
def maskedLabel (img : Nat → Nat → Nat → ℚ) (ph pw ow : Nat)
    (maskedIndices : Nat → Bool) (p c : Nat) : ℤ :=
  if maskedIndices p then rawLabel img ph pw ow p c else -100

/-- The label post-processing of `visual_embed` (lines 487-493): gather at
the selected positions, force `-100` where the gathered mask is 0, prepend a
`-100` row at the class-token position. -/
def labelSeq (lab : Nat → Nat → ℤ) (m : List Nat) (sel : List Nat)
    (j c : Nat) : ℤ :=
  if j = 0 then -100
  else if m.getD (sel.getD (j - 1) 0) 0 = 0 then -100
  else lab (sel.getD (j - 1) 0) c

/-- The attributes assigned on a `PerceiverVisionTransformer` instance
(`__init__`, lines 262-318, all optional branches included, plus
`default_cfg` set by the factory).  `mask_token` is not among them. -/
def perceiverAttrs : List String :=
  ["num_classes", "num_features", "embed_dim", "add_norm_before_transformer",
   "patch_embed", "patch_size", "patch_dim", "cls_token", "pos_embed",
   "total_output_patch", "pos_drop", "use_video", "temporal_embed",
   "max_frames", "pre_norm", "blocks", "norm", "default_cfg"]

/-- Attribute access on an object carrying the attribute list `attrs`. -/
def getattrCheck (attrs : List String) (name : String) : Except PyError Unit :=
  if name ∈ attrs then .ok () else .error .attributeError

/-- `mask_tokens` (lines 333-365): the labels are computed, then line 363
reads `self.mask_token` unconditionally. -/
def maskTokensRun (img : Nat → Nat → Nat → ℚ) (ph pw ow : Nat)
    (maskedIndices : Nat → Bool) : Except PyError (Nat → Nat → ℤ) :=
  (getattrCheck perceiverAttrs "mask_token").map
    fun _ => maskedLabel img ph pw ow maskedIndices

/-! ## Model factory / registry (lines 580-1070)

`_create_vision_transformer` begins with
`default_cfg = default_cfgs[variant]`, but no `default_cfgs` is defined in
or imported into the module, so this lookup raises NameError on every call.
The distilled factories additionally reference the undefined class
`DistilledPerceiverVisionTransformer` (line 594), and the ResNet-hybrid
factories pass `hybrid_backbone=...`, which
`PerceiverVisionTransformer.__init__` does not accept. -/

/-- The global names defined in or imported into `perceiver_obs.py`
(imports, lines 2-23; top-level definitions of the module). -/
def moduleGlobals : List String :=
  ["math", "logging", "partial", "torch", "nn", "F", "hashlib", "os",
   "urllib", "warnings", "tqdm", "IMAGENET_DEFAULT_MEAN",
   "IMAGENET_DEFAULT_STD", "load_pretrained", "StdConv2dSame", "DropPath",
   "to_2tuple", "trunc_normal_", "resnet26d", "resnet50d", "ResNetV2",
   "register_model", "transforms", "_logger", "UnNormalize",
   "inception_unnormalize", "_cfg", "Mlp", "Attention", "Block",
   "PatchEmbed", "PerceiverVisionTransformer", "resize_pos_embed",
   "checkpoint_filter_fn", "_create_vision_transformer",
   "vit_small_patch16_224", "vit_base_patch16_224", "vit_base_patch32_224",
   "vit_base_patch16_384", "vit_base_patch32_384", "vit_large_patch16_224",
   "vit_large_patch32_224", "vit_large_patch16_384", "vit_large_patch32_384",
   "vit_base_patch16_224_in21k", "vit_base_patch32_224_in21k",
   "vit_large_patch16_224_in21k", "vit_large_patch32_224_in21k",
   "vit_huge_patch14_224_in21k", "vit_base_resnet50_224_in21k",
   "vit_base_resnet50_384", "vit_small_resnet26d_224",
   "vit_small_resnet50d_s3_224", "vit_base_resnet26d_224",
   "vit_base_resnet50d_224", "vit_deit_tiny_patch16_224",
   "vit_deit_small_patch16_224", "vit_deit_base_patch16_224",
   "vit_deit_base_patch16_384", "vit_deit_tiny_distilled_patch16_224",
   "vit_deit_small_distilled_patch16_224",
   "vit_deit_base_distilled_patch16_224",
   "vit_deit_base_distilled_patch16_384"]

/-- Module-level name resolution. -/
def nameLookup (name : String) : Except PyError Unit :=
  if name ∈ moduleGlobals then .ok () else .error .nameError

/-- Keyword parameters accepted by `PerceiverVisionTransformer.__init__`
(lines 216-238).  Note `hybrid_backbone` is documented in the docstring
(line 255) but absent from the signature. -/
def perceiverCtorParams : List String :=
  ["img_size", "patch_size", "in_chans", "num_classes", "embed_dim",
   "depth", "num_heads", "mlp_ratio", "qkv_bias", "qk_scale",
   "representation_size", "drop_rate", "attn_drop_rate", "drop_path_rate",
   "norm_layer", "add_norm_before_transformer", "no_patch_embed_bias",
   "use_video", "max_frames", "pretrained"]

/-- The keyword names passed to `model_cls(...)` in
`_create_vision_transformer` (lines 585-600): the popped `img_size`,
`num_classes`, `representation_size` are passed explicitly, the remaining
kwargs are splatted; `pretrained` is a named parameter of the factory and
never part of the splat. -/
def ctorKeysOf (kwargKeys : List String) : List String :=
  "img_size" :: "num_classes" :: "representation_size" ::
    (((kwargKeys.erase "num_classes").erase "img_size").erase
      "representation_size")

/-- What `_create_vision_transformer` does after the model class is
resolved: which keywords reach the constructor, and whether
`load_pretrained` runs afterwards (lines 594-611). -/
structure FactoryOutcome where
  ctorKwargs : List String
  loadsPretrainedAfter : Bool

def factoryPlan (pretrained : Bool) (kwargKeys : List String) :
    FactoryOutcome :=
  ⟨ctorKeysOf kwargKeys, pretrained⟩

/-- `_create_vision_transformer(variant, pretrained, distilled, **kwargs)`
(lines 580-611) at the granularity of name resolution and keyword
acceptance: `default_cfgs[variant]` is evaluated first, then the model
class name, then the constructor call (TypeError if a keyword is not a
parameter of `__init__`). -/
def createVisionTransformerRun (pretrained distilled : Bool)
    (kwargKeys : List String) : Except PyError FactoryOutcome := do
  let _ ← nameLookup "default_cfgs"
  let _ ← nameLookup
    (if distilled then "DistilledPerceiverVisionTransformer"
      else "PerceiverVisionTransformer")
  if (ctorKeysOf kwargKeys).all (fun k => perceiverCtorParams.contains k) then
    return factoryPlan pretrained kwargKeys
  else
    .error .typeError

/-! ## `PerceiverVisionTransformer.__init__` (lines 216-318)

Statement order relevant to the claims: `PatchEmbed` is built at line 269
(dividing by the patch size at line 189, ZeroDivisionError when it is 0);
`self.patch_dim = img_size // patch_size` at line 278 requires an integer
`img_size` (the docstring allows a tuple, which raises TypeError here);
the transformer blocks are built at lines 296-311 — each `Block` builds an
`Attention`, whose `__init__` can raise ZeroDivisionError (below); only
then does the `pretrained` check at line 313 raise NotImplementedError,
before the weight initialisation at lines 316-318 runs, so a result is only
produced when the flag is false. -/

/-- Python truthiness of the optional float `qk_scale`: `None` and `0.0`
are falsy, so `qk_scale or head_dim ** -0.5` evaluates the power exactly
for these values. -/
def pyFalsy : Option ℚ → Bool
  | none => true
  | some q => decide (q = 0)

/-- `Attention.__init__` (lines 87-106): line 99 computes
`head_dim = dim // num_heads` (ZeroDivisionError when `num_heads = 0`);
line 101 computes `self.scale = qk_scale or head_dim ** -0.5`, and when
`qk_scale` is falsy Python evaluates `head_dim ** -0.5`, which raises
ZeroDivisionError when `head_dim = 0` (a 0.0 base with a negative
exponent).  The contained `nn.Linear`/`nn.Dropout` constructions raise
nothing (zero-element initialisation is a no-op). -/
def attentionInit (dim num_heads : Nat) (qk_scale : Option ℚ) :
    Except PyError Unit :=
  if num_heads = 0 then .error .zeroDivisionError
  else if pyFalsy qk_scale = true ∧ dim / num_heads = 0 then
    .error .zeroDivisionError
  else .ok ()

/-- `self.blocks = nn.ModuleList([Block(...) for i in range(depth)])`
(lines 296-311): each `Block` constructs one `Attention` with
`dim = embed_dim`, `num_heads`, `qk_scale`; with `depth = 0` no block is
built.  All blocks behave identically at construction. -/
def blocksInit (embed_dim depth num_heads : Nat) (qk_scale : Option ℚ) :
    Except PyError Unit :=
  if depth = 0 then .ok ()
  else attentionInit embed_dim num_heads qk_scale

structure PerceiverVT where
  patch_embed : PatchEmbedCfg
  patch_dim : Nat
  total_output_patch : Nat

def perceiverInit (img_size : Nat ⊕ (Nat × Nat))
    (patch_size in_chans embed_dim depth num_heads : Nat)
    (qk_scale : Option ℚ) (pretrained : Bool) :
    Except PyError PerceiverVT := do
  let cfg ← patchEmbedInit img_size (Sum.inl patch_size) in_chans embed_dim
  let patch_dim ← match img_size with
    | Sum.inl n => Except.ok (n / patch_size)
    | Sum.inr _ => Except.error PyError.typeError
  let _ ← blocksInit embed_dim depth num_heads qk_scale
  if pretrained then Except.error PyError.notImplementedError
  else return ⟨cfg, patch_dim, cfg.num_patches + 1⟩

/-! ## Checkpoint filtering (`resize_pos_embed`, lines 542-559;
`checkpoint_filter_fn`, lines 562-577)

Checkpoint tensors are modelled as a shape plus an entry function on index
lists.  `resize_pos_embed` keeps the class-token row, reshapes the remaining
rows to the `gs_old × gs_old` grid with `gs_old = int(sqrt(len))`, bilinearly
interpolates it (`align_corners` unset, i.e. False) to `gs_new × gs_new`
with `gs_new = int(sqrt(new_token_count - 1))`, and concatenates.
`checkpoint_filter_fn` maps every entry: keys containing
`patch_embed.proj.weight` with rank < 4 are reshaped to the model's
convolution weight shape via `reshape(O, -1, H, W)`; the `pos_embed` key is
resized exactly when its shape differs from the model's; everything else
passes through.  (The `state_dict["model"]` unwrapping for deit checkpoints
at lines 565-567 selects the inner dict before this loop and is outside this
per-entry model.) -/

structure PTensor where
  shape : List Nat
  entry : List Nat → ℚ

/-- Row-major flat index of `idx` in a tensor of shape `shape`. -/
def flatIdx : List Nat → List Nat → Nat
  | _ :: ds, i :: is2 => i * ds.prod + flatIdx ds is2
  | _, _ => 0

/-- Inverse of `flatIdx`: multi-index of flat position `f` in `shape`. -/
def unflatIdx : List Nat → Nat → List Nat
  | [], _ => []
  | _ :: ds, f => (f / ds.prod) :: unflatIdx ds (f % ds.prod)

/-- `Tensor.reshape`: same flat layout, new shape. -/
def reshapeT (v : PTensor) (newShape : List Nat) : PTensor :=
  { shape := newShape
    entry := fun idx => v.entry (unflatIdx v.shape (flatIdx newShape idx)) }

/-- `v.reshape(O, -1, H, W)` against the model's conv weight shape
`[O, I, H, W]` (lines 569-572): the inferred dimension is
`numel / (O*H*W)`. -/
def reshapeConvWeight (v : PTensor) (modelConvShape : List Nat) : PTensor :=
  let O := modelConvShape.getD 0 0
  let Hk := modelConvShape.getD 2 0
  let Wk := modelConvShape.getD 3 0
  reshapeT v [O, v.shape.prod / (O * Hk * Wk), Hk, Wk]

/-- `resize_pos_embed(posemb, posemb_new)` (lines 542-559), as a function of
the old tensor and the model's token count `ntokNew = posemb_new.shape[1]`:
row 0 (class token) is kept; the grid rows are reshaped to
`gs_old × gs_old`, bilinearly interpolated (`align_corners=False`) to
`gs_new × gs_new`, and concatenated after the class row. -/
def resize_pos_embed (posemb : PTensor) (ntokNew : Nat) : PTensor :=
  let dim := posemb.shape.getD 2 0
  let gsOld := Nat.sqrt (posemb.shape.getD 1 0 - 1)
  let gsNew := Nat.sqrt (ntokNew - 1)
  { shape := [1, gsNew * gsNew + 1, dim]
    entry := fun idx =>
      match idx with
      | [_, r, d] =>
        if r = 0 then posemb.entry [0, 0, d]
        else
          interpBilinear (fun a b => posemb.entry [0, 1 + (a * gsOld + b), d])
            gsOld gsOld gsNew gsNew false ((r - 1) / gsNew) ((r - 1) % gsNew)
      | _ => 0 }

/-- Prefix test on character lists (`List.isPrefixOf` is `BEq`-based). -/
def subListAt : List Char → List Char → Bool
  | sub, [] => sub.isEmpty
  | sub, b :: bs => sub.isPrefixOf (b :: bs) || subListAt sub bs

/-- Python's `sub in k` on strings: `sub` occurs contiguously in `k`. -/
def containsSub (sub s : String) : Bool := subListAt sub.data s.data

/-- One loop iteration of `checkpoint_filter_fn` (lines 568-576), mapping a
checkpoint entry given the model's `pos_embed` shape and conv weight
shape. -/
def checkpointFilterEntry (modelPosShape modelConvShape : List Nat)
    (kv : String × PTensor) : String × PTensor :=
  if containsSub "patch_embed.proj.weight" kv.1 = true
      ∧ kv.2.shape.length < 4 then
    (kv.1, reshapeConvWeight kv.2 modelConvShape)
  else if kv.1 = "pos_embed" ∧ kv.2.shape ≠ modelPosShape then
    (kv.1, resize_pos_embed kv.2 (modelPosShape.getD 1 0))
  else kv

/-- `checkpoint_filter_fn` over the whole (already-unwrapped) state dict. -/
def checkpoint_filter_fn (sd : List (String × PTensor))
    (modelPosShape modelConvShape : List Nat) : List (String × PTensor) :=
  sd.map (checkpointFilterEntry modelPosShape modelConvShape)

example : validIdx [1, 0, 1, 1] = [0, 2, 3] := rfl
example : nonValidIdx [1, 0, 1, 1] = [1] := rfl
example : x_h (rectMask 4 4 2 3) = 2 := rfl
example : x_w (rectMask 4 4 2 3) = 3 := rfl
example : finalMaxImageLen [4, 6] 5 = 5 := rfl
example : selectExample [1, 0, 1, 1] 2 [1, 0] [] = [2, 0] := rfl
example : selectExample [1, 0, 1, 1] 4 [] [0] = [0, 2, 3, 1] := rfl
example : selectExampleChecked [1] 0 [] [] = .error .runtimeError := rfl

example : convOutSize 224 16 16 = .ok 14 := rfl
example : convOutSize 8 16 16 = .error .runtimeError := rfl
example : patchEmbedInit (Sum.inl 224) (Sum.inl 16) 3 768 =
    .ok ⟨(224, 224), (16, 16), 3, 768⟩ := rfl

/-! ### Lemmas about the index-extraction functions -/

lemma mem_validIdxFrom {m : List Nat} : ∀ {k i : Nat},
    i ∈ validIdxFrom k m ↔ k ≤ i ∧ i - k < m.length ∧ m.getD (i - k) 0 ≠ 0 := by
  induction m with
  | nil => intro k i; simp [validIdxFrom]
  | cons a t ih =>
    intro k i
    by_cases ha : a ≠ 0
    · simp only [validIdxFrom, if_pos ha, List.singleton_append, List.mem_cons, ih,
        List.length_cons]
      constructor
      · rintro (rfl | ⟨hk, hlen, hne⟩)
        · exact ⟨le_refl _, by omega, by simpa using ha⟩
        · refine ⟨by omega, by omega, ?_⟩
          have he : i - k = (i - (k + 1)) + 1 := by omega
          rw [he, List.getD_cons_succ]; exact hne
      · rintro ⟨hk, hlen, hne⟩
        rcases Nat.eq_or_lt_of_le hk with rfl | hk1
        · exact Or.inl rfl
        · refine Or.inr ⟨hk1, by omega, ?_⟩
          have he : i - k = (i - (k + 1)) + 1 := by omega
          rw [he, List.getD_cons_succ] at hne; exact hne
    · simp only [validIdxFrom, if_neg ha, List.nil_append, ih, List.length_cons]
      constructor
      · rintro ⟨hk, hlen, hne⟩
        refine ⟨by omega, by omega, ?_⟩
        have he : i - k = (i - (k + 1)) + 1 := by omega
        rw [he, List.getD_cons_succ]; exact hne
      · rintro ⟨hk, hlen, hne⟩
        rcases Nat.eq_or_lt_of_le hk with rfl | hk1
        · exact absurd (by simpa using hne) ha
        · refine ⟨hk1, by omega, ?_⟩
          have he : i - k = (i - (k + 1)) + 1 := by omega
          rw [he, List.getD_cons_succ] at hne; exact hne

lemma mem_validIdx {m : List Nat} {i : Nat} :
    i ∈ validIdx m ↔ i < m.length ∧ m.getD i 0 ≠ 0 := by
  simp [validIdx, mem_validIdxFrom]

lemma mem_nonValidIdxFrom {m : List Nat} : ∀ {k i : Nat},
    i ∈ nonValidIdxFrom k m ↔ k ≤ i ∧ i - k < m.length ∧ m.getD (i - k) 0 = 0 := by
  induction m with
  | nil => intro k i; simp [nonValidIdxFrom]
  | cons a t ih =>
    intro k i
    by_cases ha : a = 0
    · have hcond : 1 - a ≠ 0 := by omega
      simp only [nonValidIdxFrom, if_pos hcond, List.singleton_append, List.mem_cons,
        ih, List.length_cons]
      constructor
      · rintro (rfl | ⟨hk, hlen, hz⟩)
        · exact ⟨le_refl _, by omega, by simpa using ha⟩
        · refine ⟨by omega, by omega, ?_⟩
          have he : i - k = (i - (k + 1)) + 1 := by omega
          rw [he, List.getD_cons_succ]; exact hz
      · rintro ⟨hk, hlen, hz⟩
        rcases Nat.eq_or_lt_of_le hk with rfl | hk1
        · exact Or.inl rfl
        · refine Or.inr ⟨hk1, by omega, ?_⟩
          have he : i - k = (i - (k + 1)) + 1 := by omega
          rw [he, List.getD_cons_succ] at hz; exact hz
    · have hcond : ¬(1 - a ≠ 0) := by omega
      simp only [nonValidIdxFrom, if_neg hcond, List.nil_append, ih, List.length_cons]
      constructor
      · rintro ⟨hk, hlen, hz⟩
        refine ⟨by omega, by omega, ?_⟩
        have he : i - k = (i - (k + 1)) + 1 := by omega
        rw [he, List.getD_cons_succ]; exact hz
      · rintro ⟨hk, hlen, hz⟩
        rcases Nat.eq_or_lt_of_le hk with rfl | hk1
        · exact absurd (by simpa using hz) ha
        · refine ⟨hk1, by omega, ?_⟩
          have he : i - k = (i - (k + 1)) + 1 := by omega
          rw [he, List.getD_cons_succ] at hz; exact hz

lemma mem_nonValidIdx {m : List Nat} {i : Nat} :
    i ∈ nonValidIdx m ↔ i < m.length ∧ m.getD i 0 = 0 := by
  simp [nonValidIdx, mem_nonValidIdxFrom]

lemma validIdxFrom_pairwise {m : List Nat} : ∀ {k : Nat},
    (validIdxFrom k m).Pairwise (· < ·) := by
  induction m with
  | nil => intro k; simp [validIdxFrom]
  | cons a t ih =>
    intro k
    by_cases ha : a ≠ 0
    · simp only [validIdxFrom, if_pos ha, List.singleton_append]
      exact List.Pairwise.cons
        (fun j hj => lt_of_lt_of_le (Nat.lt_succ_self k) (mem_validIdxFrom.mp hj).1) ih
    · simp only [validIdxFrom, if_neg ha, List.nil_append]; exact ih

lemma validIdx_nodup (m : List Nat) : (validIdx m).Nodup :=
  validIdxFrom_pairwise.imp ne_of_lt

lemma validIdxFrom_length {m : List Nat} : ∀ {k : Nat},
    (validIdxFrom k m).length = m.countP (fun v => v ≠ 0) := by
  induction m with
  | nil => intro k; simp [validIdxFrom]
  | cons a t ih =>
    intro k
    by_cases ha : a ≠ 0 <;>
      simp [validIdxFrom, ha, List.countP_cons, ih]

lemma nonValidIdxFrom_length {m : List Nat} : ∀ {k : Nat},
    (nonValidIdxFrom k m).length = m.countP (fun v => 1 - v ≠ 0) := by
  induction m with
  | nil => intro k; simp [nonValidIdxFrom]
  | cons a t ih =>
    intro k
    by_cases ha : 1 - a ≠ 0 <;>
      simp [nonValidIdxFrom, ha, List.countP_cons, ih]

lemma validIdxFrom_length_add {m : List Nat} : ∀ {k : Nat},
    (validIdxFrom k m).length + (nonValidIdxFrom k m).length = m.length := by
  induction m with
  | nil => intro k; simp [validIdxFrom, nonValidIdxFrom]
  | cons a t ih =>
    intro k
    by_cases ha : a = 0
    · have h1 : ¬(a ≠ 0) := by omega
      have h2 : 1 - a ≠ 0 := by omega
      simp only [validIdxFrom, nonValidIdxFrom, if_neg h1, if_pos h2,
        List.nil_append, List.singleton_append, List.length_cons]
      have h3 := ih (k := k + 1)
      omega
    · have h2 : ¬(1 - a ≠ 0) := by omega
      simp only [validIdxFrom, nonValidIdxFrom, if_pos ha, if_neg h2,
        List.singleton_append, List.nil_append, List.length_cons]
      have h3 := ih (k := k + 1)
      omega

lemma validIdx_length_add_nonValidIdx_length (m : List Nat) :
    (validIdx m).length + (nonValidIdx m).length = m.length :=
  validIdxFrom_length_add

lemma countP_range_lt {w W : Nat} (hw : w ≤ W) :
    (List.range W).countP (fun c => c < w) = w := by
  induction W with
  | zero => have : w = 0 := by omega
            simp [this]
  | succ n ih =>
    rw [List.range_succ, List.countP_append]
    by_cases h : w ≤ n
    · rw [ih h]
      have : ¬(n < w) := by omega
      simp [List.countP_cons, this]
    · have hw1 : w = n + 1 := by omega
      subst hw1
      have hall : (List.range n).countP (fun c => c < n + 1) = n := by
        rw [List.countP_eq_length.mpr]
        · exact List.length_range n
        · intro a ha
          simp only [List.mem_range] at ha
          simp; omega
      simp [hall, List.countP_cons]

lemma sum_range_ite_const {h H : Nat} (c : Nat) (hh : h ≤ H) :
    ((List.range H).map fun r => if r < h then c else 0).sum = h * c := by
  induction H with
  | zero => have : h = 0 := by omega
            simp [this]
  | succ n ih =>
    rw [List.range_succ, List.map_append, List.sum_append]
    by_cases hn : h ≤ n
    · rw [ih hn]
      have : ¬(n < h) := by omega
      simp [this]
    · have hh1 : h = n + 1 := by omega
      subst hh1
      have hall : ((List.range n).map fun r => if r < n + 1 then c else 0).sum
          = n * c := by
        have hmap : ((List.range n).map fun r => if r < n + 1 then c else 0)
            = (List.range n).map fun _ => c := by
          refine List.map_congr_left (fun a ha => ?_)
          simp only [List.mem_range] at ha
          simp; omega
        rw [hmap, List.map_const', List.sum_replicate, smul_eq_mul,
          List.length_range]
      rw [hall]
      have hn1 : n < n + 1 := Nat.lt_succ_self n
      simp only [List.map_cons, List.map_nil, List.sum_cons, List.sum_nil,
        if_pos hn1]
      ring

lemma flattenGrid_rectMask_length (H W h w : Nat) :
    (flattenGrid (rectMask H W h w)).length = H * W := by
  simp [flattenGrid, rectMask, List.length_flatten, List.map_map, Function.comp_def,
    List.map_const', List.sum_replicate, smul_eq_mul]

lemma validIdx_rectMask_length {H W h w : Nat} (hh : h ≤ H) (hw : w ≤ W) :
    (validIdx (flattenGrid (rectMask H W h w))).length = h * w := by
  rw [validIdx, validIdxFrom_length, flattenGrid, List.countP_flatten, rectMask]
  have hrow : ∀ r : Nat,
      ((List.range W).map fun c =>
        if r < h ∧ c < w then 1 else 0).countP (fun v => v ≠ 0)
      = if r < h then w else 0 := by
    intro r
    rw [List.countP_map]
    by_cases hr : r < h
    · have : ((List.range W).countP
          (fun c => (fun v => decide (v ≠ 0)) (if r < h ∧ c < w then 1 else 0)))
          = (List.range W).countP (fun c => c < w) := by
        refine List.countP_congr (fun c _ => ?_)
        by_cases hc : c < w <;> simp [hr, hc]
      rw [Function.comp_def] at *
      simp only [this, countP_range_lt hw, if_pos hr]
    · rw [if_neg hr]
      refine List.countP_eq_zero.mpr (fun c _ => ?_)
      simp [hr]
  simp only [List.map_map, Function.comp_def, hrow]
  exact sum_range_ite_const w hh

lemma nonValidIdx_rectMask_length {H W h w : Nat} (hh : h ≤ H) (hw : w ≤ W) :
    (nonValidIdx (flattenGrid (rectMask H W h w))).length = H * W - h * w := by
  have h1 := validIdx_length_add_nonValidIdx_length (flattenGrid (rectMask H W h w))
  rw [validIdx_rectMask_length hh hw, flattenGrid_rectMask_length] at h1
  omega

lemma rectRow_getD (W h w r : Nat) :
    (((List.range W).map fun c => if r < h ∧ c < w then 1 else 0).getD 0 0)
      = if 0 < W ∧ r < h ∧ 0 < w then 1 else 0 := by
  cases W with
  | zero => simp
  | succ n =>
    rw [List.range_succ_eq_map, List.map_cons, List.getD_cons_zero]
    have hn : 0 < n + 1 := Nat.succ_pos n
    by_cases h1 : r < h
    · by_cases h2 : 0 < w <;> simp [h1, h2, hn]
    · simp [h1, hn]

lemma x_h_rectMask {H W h w : Nat} (hh : h ≤ H) :
    x_h (rectMask H W h w) = if 0 < W ∧ 0 < w then h else 0 := by
  rw [x_h, rectMask, List.map_map]
  simp only [Function.comp_def, rectRow_getD]
  by_cases hc : 0 < W ∧ 0 < w
  · have heq : ∀ r : Nat, (if 0 < W ∧ r < h ∧ 0 < w then 1 else 0)
        = if r < h then 1 else 0 := by
      intro r
      by_cases hr : r < h <;> simp [hr, hc.1, hc.2]
    simp only [heq, if_pos hc]
    simpa using sum_range_ite_const (h := h) (H := H) 1 hh
  · have heq : ∀ r : Nat, (if 0 < W ∧ r < h ∧ 0 < w then (1 : Nat) else 0) = 0 := by
      intro r
      rw [if_neg]
      rintro ⟨h1, _, h3⟩
      exact hc ⟨h1, h3⟩
    simp only [heq, if_neg hc]
    simp [List.map_const', List.sum_replicate]

lemma x_w_rectMask {H W h w : Nat} (hw : w ≤ W) :
    x_w (rectMask H W h w) = if 0 < H ∧ 0 < h then w else 0 := by
  cases H with
  | zero => simp [x_w, rectMask]
  | succ n =>
    rw [x_w, rectMask, List.range_succ_eq_map, List.map_cons, List.headD_cons]
    have hn : 0 < n + 1 := Nat.succ_pos n
    by_cases hh0 : 0 < h
    · have heq : ∀ c : Nat, (if (0 : Nat) < h ∧ c < w then 1 else 0)
          = if c < w then 1 else 0 := by
        intro c
        by_cases hcw : c < w <;> simp [hcw, hh0]
      have hsum : ((List.range W).map fun c => if c < w then (1 : Nat) else 0).sum
          = w := by
        simpa using sum_range_ite_const (h := w) (H := W) 1 hw
      simp only [heq]
      rw [hsum]
      simp [hn, hh0]
    · have heq : ∀ c : Nat, (if (0 : Nat) < h ∧ c < w then (1 : Nat) else 0) = 0 := by
        intro c
        rw [if_neg]
        rintro ⟨h1, _⟩
        exact hh0 h1
      have hneg : ¬(0 < n + 1 ∧ 0 < h) := by
        rintro ⟨_, h1⟩
        exact hh0 h1
      simp only [heq, if_neg hneg]
      simp [List.map_const', List.sum_replicate]

lemma eff_rectMask {H W h w : Nat} (hh : h ≤ H) (hw : w ≤ W) :
    x_h (rectMask H W h w) * x_w (rectMask H W h w) = h * w := by
  rw [x_h_rectMask hh, x_w_rectMask hw]
  by_cases h1 : 0 < W ∧ 0 < w
  · by_cases h2 : 0 < H ∧ 0 < h
    · simp [h1, h2]
    · have h0 : h = 0 := by
        rcases Nat.eq_zero_or_pos h with h0 | hpos
        · exact h0
        · exact absurd ⟨lt_of_lt_of_le hpos hh, hpos⟩ h2
      simp [h1, h2, h0]
  · have w0 : w = 0 := by
      rcases Nat.eq_zero_or_pos w with w0 | wpos
      · exact w0
      · exact absurd ⟨lt_of_lt_of_le wpos hw, wpos⟩ h1
    simp [h1, w0]

lemma validIdx_getD_inj (m : List Nat) {c d : Nat} (hc : c < (validIdx m).length)
    (hd : d < (validIdx m).length) (hne : c ≠ d) :
    (validIdx m).getD c 0 ≠ (validIdx m).getD d 0 := by
  have hp : (validIdx m).Pairwise (· < ·) := validIdxFrom_pairwise
  have hlt := List.pairwise_iff_getElem.mp hp
  rw [List.getD_eq_getElem (validIdx m) 0 hc, List.getD_eq_getElem (validIdx m) 0 hd]
  rcases Nat.lt_or_ge c d with hcd | hcd
  · exact ne_of_lt (hlt c d hc hd hcd)
  · have hdc : d < c := by omega
    exact (ne_of_lt (hlt d c hd hc hdc)).symm

lemma multinomialCheck_ok {numCat numSamples : Nat} {replacement : Bool}
    (h1 : numSamples ≠ 0) (h2 : numCat ≠ 0)
    (h3 : replacement = true ∨ numSamples ≤ numCat) :
    multinomialCheck numCat numSamples replacement = .ok () := by
  unfold multinomialCheck
  rw [if_neg h1, if_neg h2, if_neg]
  rintro ⟨hr, hlt⟩
  rcases h3 with h3 | h3
  · rw [h3] at hr
    exact absurd hr (by simp)
  · omega

lemma mem_le_foldr_max {l : List Nat} {a : Nat} (h : a ∈ l) :
    a ≤ l.foldr max 0 := by
  induction l with
  | nil => simp at h
  | cons b t ih =>
    rcases List.mem_cons.mp h with rfl | ht
    · exact le_max_left _ _
    · exact le_trans (ih ht) (le_max_right _ _)

lemma foldr_max_le {l : List Nat} {b : Nat} (h : ∀ a ∈ l, a ≤ b) :
    l.foldr max 0 ≤ b := by
  induction l with
  | nil => simp
  | cons c t ih =>
    simp only [List.foldr_cons, max_le_iff]
    exact ⟨h c (List.mem_cons_self c t), ih (fun a ha => h a (List.mem_cons_of_mem c ha))⟩

/-- **C1** (amended: the claim holds for a *positive* integer `max_image_len`
and examples with at least one valid patch; `max_image_len = 0` makes the
sampler raise, see the counterexample).  For a batch of letterbox mask grids
of extents `(hᵢ, wᵢ)` inside the `H × W` patch grid, the sampler of
`visual_embed` selects for each example exactly `L` patch positions, where
`L = min(max over the batch of x_h * x_w, max_image_len)`: an example with at
least `L` valid patches gets `L` distinct valid positions (truncation,
sampling without replacement), any other example keeps all its valid
positions and fills the remaining `L - valid-count` slots with invalid
positions sampled with replacement; the per-example token sequence has
exactly `L + 1` entries counting the prepended class token. -/
theorem C1_token_budget_sampling
    (H W maxLen : Nat) (dims : List (Nat × Nat)) (h w : Nat)
    (cls : Nat → ℚ) (toks : Nat → Nat → ℚ)
    (validChoice padChoice : List Nat) (L : Nat) (m : List Nat)
    (hmem : (h, w) ∈ dims)
    (hdims : ∀ d ∈ dims, d.1 ≤ H ∧ d.2 ≤ W)
    (hh : 0 < h) (hw : 0 < w) (hpos : 0 < maxLen)
    (hL : L = finalMaxImageLen
      (effList (dims.map fun d => rectMask H W d.1 d.2)) maxLen)
    (hm : m = flattenGrid (rectMask H W h w))
    (hvalid : L ≤ h * w →
      validChoice.length = L ∧ validChoice.Nodup ∧
        ∀ c ∈ validChoice, c < (validIdx m).length)
    (hpad : h * w < L →
      padChoice.length = L - (validIdx m).length ∧
        ∀ c ∈ padChoice, c < (nonValidIdx m).length) :
    selectExampleChecked m L validChoice padChoice
        = .ok (selectExample m L validChoice padChoice)
    ∧ (selectExample m L validChoice padChoice).length = L
    ∧ (L ≤ h * w →
        (∀ p ∈ selectExample m L validChoice padChoice, p ∈ validIdx m)
        ∧ (selectExample m L validChoice padChoice).Nodup)
    ∧ (h * w < L →
        selectExample m L validChoice padChoice
          = validIdx m ++ padChoice.map (fun c => (nonValidIdx m).getD c 0)
        ∧ (padChoice.map fun c => (nonValidIdx m).getD c 0).length = L - h * w
        ∧ ∀ p ∈ padChoice.map (fun c => (nonValidIdx m).getD c 0),
            p ∈ nonValidIdx m)
    ∧ (tokensRow cls toks (selectExample m L validChoice padChoice)).length
        = L + 1 := by
  have hhH : h ≤ H := (hdims (h, w) hmem).1
  have hwW : w ≤ W := (hdims (h, w) hmem).2
  have hv : (validIdx m).length = h * w := by
    rw [hm]; exact validIdx_rectMask_length hhH hwW
  have hnv : (nonValidIdx m).length = H * W - h * w := by
    rw [hm]; exact nonValidIdx_rectMask_length hhH hwW
  have heffmem : h * w ∈ effList (dims.map fun d => rectMask H W d.1 d.2) := by
    rw [effList]
    refine List.mem_map.mpr
      ⟨rectMask H W h w, List.mem_map.mpr ⟨(h, w), hmem, rfl⟩, ?_⟩
    exact eff_rectMask hhH hwW
  have hL1 : 1 ≤ L := by
    rw [hL, finalMaxImageLen]
    have h1 : 1 ≤ h * w := Nat.mul_pos hh hw
    exact le_min (le_trans h1 (mem_le_foldr_max heffmem)) hpos
  have hLHW : L ≤ H * W := by
    have hLmax : L ≤ (effList (dims.map fun d => rectMask H W d.1 d.2)).foldr
        max 0 := by
      rw [hL, finalMaxImageLen]; exact min_le_left _ _
    refine le_trans hLmax (foldr_max_le ?_)
    intro a ha
    rw [effList] at ha
    obtain ⟨mg, hmg, rfl⟩ := List.mem_map.mp ha
    obtain ⟨d, hd, rfl⟩ := List.mem_map.mp hmg
    rw [eff_rectMask (hdims d hd).1 (hdims d hd).2]
    exact Nat.mul_le_mul (hdims d hd).1 (hdims d hd).2
  by_cases hbr : L ≤ h * w
  · obtain ⟨hvc, hvnd, hvb⟩ := hvalid hbr
    have hcond : (L : ℤ) - (validIdx m).length ≤ 0 := by
      rw [hv]; push_cast; omega
    have hsel : selectExample m L validChoice padChoice
        = validChoice.map fun c => (validIdx m).getD c 0 := by
      unfold selectExample; rw [if_pos hcond]
    have hmc : multinomialCheck (validIdx m).length L false = .ok () := by
      refine multinomialCheck_ok (by omega) ?_ (Or.inr ?_)
      · rw [hv]
        have h1 := Nat.mul_pos hh hw
        omega
      · rw [hv]; exact hbr
    refine ⟨?_, ?_, ?_, ?_, ?_⟩
    · unfold selectExampleChecked
      rw [if_pos hcond, hmc, hsel]
      rfl
    · rw [hsel, List.length_map, hvc]
    · intro _
      constructor
      · intro p hp
        rw [hsel] at hp
        obtain ⟨c, hc, rfl⟩ := List.mem_map.mp hp
        have hclt := hvb c hc
        rw [List.getD_eq_getElem (validIdx m) 0 hclt]
        exact List.getElem_mem hclt
      · rw [hsel]
        refine List.Nodup.map_on ?_ hvnd
        intro x hx y hy hxy
        by_contra hne
        exact validIdx_getD_inj m (hvb x hx) (hvb y hy) hne hxy
    · intro hlt; omega
    · simp only [tokensRow, List.length_cons, hsel, List.length_map, hvc]
  · push_neg at hbr
    obtain ⟨hpc, hpb⟩ := hpad hbr
    have hcond : ¬((L : ℤ) - (validIdx m).length ≤ 0) := by
      rw [hv]; push_cast; omega
    have hsel : selectExample m L validChoice padChoice
        = validIdx m ++ padChoice.map fun c => (nonValidIdx m).getD c 0 := by
      unfold selectExample; rw [if_neg hcond]
    have hmc : multinomialCheck (nonValidIdx m).length
        (L - (validIdx m).length) true = .ok () := by
      refine multinomialCheck_ok ?_ ?_ (Or.inl rfl)
      · rw [hv]; omega
      · rw [hnv]; omega
    refine ⟨?_, ?_, ?_, ?_, ?_⟩
    · unfold selectExampleChecked
      rw [if_neg hcond, hmc, hsel]
      rfl
    · rw [hsel, List.length_append, List.length_map, hpc, hv]; omega
    · intro hle; omega
    · intro _
      refine ⟨hsel, ?_, ?_⟩
      · rw [List.length_map, hpc, hv]
      · intro p hp
        obtain ⟨c, hc, rfl⟩ := List.mem_map.mp hp
        have hclt := hpb c hc
        rw [List.getD_eq_getElem (nonValidIdx m) 0 hclt]
        exact List.getElem_mem hclt
    · simp only [tokensRow, List.length_cons, hsel, List.length_append,
        List.length_map]
      rw [hpc, hv]
      omega

/-- **C1 counterexample**: the claim quantifies over *non-negative*
`max_image_len`, but at `max_image_len = 0` (with the source's actual
all-ones 1×1 mask grid) the final budget is `L = 0` and the truncation
branch calls `torch.multinomial(ones(1), 0)`, which raises
(`cannot sample n_sample <= 0 samples`) instead of selecting `L` positions
and returning `L + 1 = 1` tokens. -/
theorem C1_counterexample_zero_budget :
    finalMaxImageLen (effList [onesMask 1 1]) 0 = 0
    ∧ selectExampleChecked (flattenGrid (onesMask 1 1)) 0 [] []
        = .error .runtimeError :=
  ⟨rfl, rfl⟩

/-- Witness for C1 at a concrete input: batch of letterbox extents
`[(1,2),(2,2)]` in a `2 × 2` grid with `max_image_len = 3`, so `L = 3`; the
example of extent `(1,2)` has 2 valid patches and gets them plus one
pad-sampled invalid position. -/
theorem C1_token_budget_sampling_witness :
    (selectExample [1, 1, 0, 0] 3 [] [1]).length = 3
    ∧ selectExample [1, 1, 0, 0] 3 [] [1] = [0, 1, 3] :=
  ⟨(C1_token_budget_sampling 2 2 3 [(1, 2), (2, 2)] 1 2 (fun _ => 0)
      (fun _ _ => 0) [] [1] 3 [1, 1, 0, 0] (by decide) (by decide) (by decide)
      (by decide) (by decide) rfl rfl (fun hc => absurd hc (by decide))
      (fun _ => by decide)).2.1,
    by decide⟩

/-- **C9**: for a 4-D image input the attention mask returned by
`visual_embed` has one row per example of length `L + 1`; the first entry
(class-token position) is 1, and for every other position `j` the entry is 1
exactly when the `j`-th selected token came from a valid (nonzero-mask)
patch position and 0 exactly when it is an invalid (zero-mask) position. -/
theorem C9_attention_mask_shape_and_validity
    (batch : List (List Nat × List Nat)) (L : Nat)
    (hlen : ∀ pr ∈ batch, pr.2.length = L)
    (hbound : ∀ pr ∈ batch, ∀ p ∈ pr.2, p < pr.1.length)
    (hbin : ∀ pr ∈ batch, ∀ v ∈ pr.1, v ≤ 1) :
    (batch.map fun pr => xMaskRow pr.1 pr.2).length = batch.length
    ∧ (∀ row ∈ batch.map fun pr => xMaskRow pr.1 pr.2, row.length = L + 1)
    ∧ ∀ pr ∈ batch,
        (xMaskRow pr.1 pr.2).getD 0 0 = 1
        ∧ ∀ j < L,
            ((xMaskRow pr.1 pr.2).getD (j + 1) 0 = 1
              ↔ pr.2.getD j 0 ∈ validIdx pr.1)
            ∧ ((xMaskRow pr.1 pr.2).getD (j + 1) 0 = 0
              ↔ pr.2.getD j 0 ∈ nonValidIdx pr.1) := by
  refine ⟨List.length_map _ _, ?_, ?_⟩
  · intro row hrow
    obtain ⟨pr, hpr, rfl⟩ := List.mem_map.mp hrow
    simp only [xMaskRow, List.length_cons, List.length_map]
    rw [hlen pr hpr]
  · intro pr hpr
    refine ⟨rfl, ?_⟩
    intro j hj
    have hjlen : j < pr.2.length := by rw [hlen pr hpr]; exact hj
    have hentry : (xMaskRow pr.1 pr.2).getD (j + 1) 0
        = pr.1.getD (pr.2.getD j 0) 0 := by
      have hjm : j < (pr.2.map fun pos => pr.1.getD pos 0).length := by
        rw [List.length_map]; exact hjlen
      rw [xMaskRow, List.getD_cons_succ,
        List.getD_eq_getElem _ 0 hjm, List.getElem_map,
        List.getD_eq_getElem _ 0 hjlen]
    have hp : pr.2.getD j 0 < pr.1.length := by
      rw [List.getD_eq_getElem _ 0 hjlen]
      exact hbound pr hpr _ (List.getElem_mem hjlen)
    have hvle : pr.1.getD (pr.2.getD j 0) 0 ≤ 1 := by
      refine hbin pr hpr _ ?_
      rw [List.getD_eq_getElem _ 0 hp]
      exact List.getElem_mem hp
    rw [hentry]
    constructor
    · rw [mem_validIdx]
      omega
    · rw [mem_nonValidIdx]
      omega

lemma sum_pos_of_mem {l : List ℚ} (hnn : ∀ x ∈ l, 0 ≤ x) {a : ℚ}
    (ha : a ∈ l) (hap : 0 < a) : 0 < l.sum := by
  induction l with
  | nil => simp at ha
  | cons b t ih =>
    rw [List.sum_cons]
    rcases List.mem_cons.mp ha with rfl | hat
    · have ht : 0 ≤ t.sum :=
        List.sum_nonneg fun x hx => hnn x (List.mem_cons_of_mem _ hx)
      linarith
    · have hb : 0 ≤ b := hnn b (List.mem_cons_self _ _)
      have := ih (fun x hx => hnn x (List.mem_cons_of_mem _ hx)) hat
      linarith

/-- **C5**: in `Attention.forward`, when a mask is supplied, the logits of
every key position whose mask entry is 0 are replaced by `-inf` before the
softmax, so for every query in every head the post-softmax weight of every
masked key position is exactly 0 (and, under the precondition that at least
one key is unmasked, the softmax denominator is strictly positive). -/
theorem C5_masked_attention_weights_zero
    (e : ℚ → ℚ) (mask : List Nat) (logits : List ℚ)
    (hepos : ∀ q, 0 < e q)
    (hlen : logits.length = mask.length)
    (hunmask : ∃ j, j < mask.length ∧ mask.getD j 0 ≠ 0) :
    0 < ((maskedFill mask logits).map (expExt e)).sum
    ∧ ∀ j < mask.length, mask.getD j 0 = 0 →
        (attnRow e mask logits).getD j 1 = 0 := by
  have hmfl : (maskedFill mask logits).length = mask.length := by
    rw [maskedFill, List.length_zipWith, hlen, min_self]
  constructor
  · obtain ⟨j, hj, hjne⟩ := hunmask
    have hjmf : j < (maskedFill mask logits).length := by rw [hmfl]; exact hj
    have hjl : j < logits.length := by rw [hlen]; exact hj
    have hmfj : (maskedFill mask logits)[j] = some logits[j] := by
      rw [List.getD_eq_getElem mask 0 hj] at hjne
      simp only [maskedFill, List.getElem_zipWith]
      simp [hjne]
    have hjm : j < ((maskedFill mask logits).map (expExt e)).length := by
      rw [List.length_map]; exact hjmf
    have hmem : e logits[j] ∈ (maskedFill mask logits).map (expExt e) := by
      have hval : ((maskedFill mask logits).map (expExt e))[j] = e logits[j] := by
        rw [List.getElem_map, hmfj]
        rfl
      rw [← hval]
      exact List.getElem_mem hjm
    refine sum_pos_of_mem ?_ hmem (hepos _)
    intro x hx
    obtain ⟨o, ho, rfl⟩ := List.mem_map.mp hx
    cases o with
    | none => simp [expExt]
    | some q => exact le_of_lt (hepos q)
  · intro j hj hz
    have hjmf : j < (maskedFill mask logits).length := by rw [hmfl]; exact hj
    have hja : j < (attnRow e mask logits).length := by
      rw [attnRow, softmaxRow, List.length_map]; exact hjmf
    have hmfj : (maskedFill mask logits)[j] = none := by
      rw [List.getD_eq_getElem mask 0 hj] at hz
      simp only [maskedFill, List.getElem_zipWith]
      simp [hz]
    rw [List.getD_eq_getElem _ 1 hja]
    have hval : (attnRow e mask logits)[j]
        = expExt e ((maskedFill mask logits)[j])
          / ((maskedFill mask logits).map (expExt e)).sum := by
      simp only [attnRow, softmaxRow, List.getElem_map]
    rw [hval, hmfj]
    simp [expExt]

/-- Witness for C5 at a concrete input: mask `[1, 0]`, logits `[5, 7]`,
`e = const 1`. -/
theorem C5_masked_attention_weights_zero_witness :
    0 < ((maskedFill [1, 0] [5, 7]).map (expExt fun _ => 1)).sum
    ∧ ∀ j < ([1, 0] : List Nat).length, ([1, 0] : List Nat).getD j 0 = 0 →
        (attnRow (fun _ => 1) [1, 0] [5, 7]).getD j 1 = 0 :=
  C5_masked_attention_weights_zero (fun _ => 1) [1, 0] [5, 7]
    (fun _ => by norm_num) rfl ⟨0, by decide, by decide⟩

/-- Witness for C9 at a concrete input: mask `[1,1,0,0]`, selected positions
`[0, 1, 3]` (two valid ones and one pad-sampled invalid one). -/
theorem C9_attention_mask_witness :
    (xMaskRow [1, 1, 0, 0] [0, 1, 3]).getD 0 0 = 1
    ∧ ∀ j < 3,
        ((xMaskRow [1, 1, 0, 0] [0, 1, 3]).getD (j + 1) 0 = 1
          ↔ ([0, 1, 3] : List Nat).getD j 0 ∈ validIdx [1, 1, 0, 0])
        ∧ ((xMaskRow [1, 1, 0, 0] [0, 1, 3]).getD (j + 1) 0 = 0
          ↔ ([0, 1, 3] : List Nat).getD j 0 ∈ nonValidIdx [1, 1, 0, 0]) :=
  (C9_attention_mask_shape_and_validity [([1, 1, 0, 0], [0, 1, 3])] 3
      (by decide) (by decide) (by decide)).2.2
    ([1, 1, 0, 0], [0, 1, 3]) (by decide)

lemma rect_rows_disjoint {ph r r2 i : Nat} (hlt : r < r2)
    (h2 : i < r * ph + ph) (h5 : r2 * ph ≤ i) : False := by
  have hs : (r + 1) * ph ≤ r2 * ph := Nat.mul_le_mul_right ph hlt
  rw [Nat.succ_mul] at hs
  exact absurd (lt_of_lt_of_le (lt_of_lt_of_le h2 hs) h5) (lt_irrefl i)

lemma self_mem_patchRect {ph pw : Nat} (hph : 0 < ph) (hpw : 0 < pw)
    (i j : Nat) : (i, j) ∈ patchRect ph pw (i / ph) (j / pw) := by
  have hmod1 : i % ph < ph := Nat.mod_lt i hph
  have hdm1 : ph * (i / ph) + i % ph = i := Nat.div_add_mod i ph
  have hmod2 : j % pw < pw := Nat.mod_lt j hpw
  have hdm2 : pw * (j / pw) + j % pw = j := Nat.div_add_mod j pw
  refine ⟨Nat.div_mul_le_self i ph, ?_, Nat.div_mul_le_self j pw, ?_⟩
  · rw [Nat.mul_comm]
    linarith
  · rw [Nat.mul_comm]
    linarith

/-- **C8** (amended: the input must be at least one patch in each dimension;
a smaller input makes the convolution raise, see the counterexample).
`PatchEmbed` applies a convolution with kernel = stride = patch size and no
padding: on an `H × W` input the output grid is `H/ph × W/pw`; the stored
`num_patches` is `(imgH/ph) * (imgW/pw)`; the output value at a patch
position only reads the pixels of that patch's rectangle, and the patch
rectangles are pairwise disjoint and tile the image. -/
theorem C8_patch_embedding_tiling
    (imgH imgW ph pw cin ed H W : Nat)
    (hph : 0 < ph) (hpw : 0 < pw) (hH : ph ≤ H) (hW : pw ≤ W) :
    patchEmbedOutShape ⟨(imgH, imgW), (ph, pw), cin, ed⟩ H W
        = .ok (H / ph, W / pw)
    ∧ PatchEmbedCfg.num_patches ⟨(imgH, imgW), (ph, pw), cin, ed⟩
        = (imgH / ph) * (imgW / pw)
    ∧ (∀ (w : Nat → Nat → Nat → Nat → ℚ) (b : Nat → ℚ)
        (x x2 : Nat → Nat → Nat → ℚ) (o r s : Nat), o < ed →
        (∀ c i j, c < cin → (i, j) ∈ patchRect ph pw r s → x c i j = x2 c i j) →
        patchEmbedVal ⟨(imgH, imgW), (ph, pw), cin, ed⟩ w b x o r s
          = patchEmbedVal ⟨(imgH, imgW), (ph, pw), cin, ed⟩ w b x2 o r s)
    ∧ (∀ r s r2 s2 : Nat, (r, s) ≠ (r2, s2) →
        patchRect ph pw r s ∩ patchRect ph pw r2 s2 = ∅)
    ∧ (∀ i j : Nat, (i, j) ∈ patchRect ph pw (i / ph) (j / pw)
        ∧ ∀ r s : Nat, (i, j) ∈ patchRect ph pw r s → r = i / ph ∧ s = j / pw) := by
  refine ⟨?_, ?_, ?_, ?_, ?_⟩
  · have q1 : convOutSize H ph ph = .ok (H / ph) := by
      unfold convOutSize
      rw [if_pos hH]
      congr 1
      have h2 : H - ph + ph = H := Nat.sub_add_cancel hH
      have h3 := Nat.add_div_right (H - ph) hph
      rw [h2] at h3
      omega
    have q2 : convOutSize W pw pw = .ok (W / pw) := by
      unfold convOutSize
      rw [if_pos hW]
      congr 1
      have h2 : W - pw + pw = W := Nat.sub_add_cancel hW
      have h3 := Nat.add_div_right (W - pw) hpw
      rw [h2] at h3
      omega
    show (do
      let oh ← convOutSize H ph ph
      let ow ← convOutSize W pw pw
      return (oh, ow) : Except PyError (Nat × Nat)) = .ok (H / ph, W / pw)
    rw [q1, q2]
    rfl
  · exact Nat.mul_comm (imgW / pw) (imgH / ph)
  · intro w b x x2 o r s ho hagree
    simp only [patchEmbedVal, conv2dVal]
    congr 1
    refine Finset.sum_congr rfl fun c hc => Finset.sum_congr rfl fun i hi2 =>
      Finset.sum_congr rfl fun j hj2 => ?_
    simp only [Finset.mem_range] at hc hi2 hj2
    have hch : o / (ed / 1) * (cin / 1) + c = c := by
      rw [Nat.div_one, Nat.div_one, Nat.div_eq_of_lt ho, Nat.zero_mul,
        Nat.zero_add]
    have hrect : ((r * ph + i, s * pw + j) : Nat × Nat) ∈ patchRect ph pw r s := by
      refine ⟨Nat.le_add_right _ _, ?_, Nat.le_add_right _ _, ?_⟩
      · exact Nat.add_lt_add_left hi2 _
      · exact Nat.add_lt_add_left hj2 _
    simp only [hch]
    rw [hagree c (r * ph + i) (s * pw + j) (by omega) hrect]
  · intro r s r2 s2 hne
    ext p
    obtain ⟨i, j⟩ := p
    simp only [Set.mem_inter_iff, Set.mem_empty_iff_false, iff_false]
    rintro ⟨⟨h1, h2, h3, h4⟩, h5, h6, h7, h8⟩
    have hr : r = r2 := by
      by_contra hrne
      rcases Nat.lt_or_ge r r2 with hlt | hge
      · exact rect_rows_disjoint hlt h2 h5
      · exact rect_rows_disjoint (by omega : r2 < r) h6 h1
    have hs : s = s2 := by
      by_contra hsne
      rcases Nat.lt_or_ge s s2 with hlt | hge
      · exact rect_rows_disjoint hlt h4 h7
      · exact rect_rows_disjoint (by omega : s2 < s) h8 h3
    exact hne (by rw [hr, hs])
  · intro i j
    refine ⟨self_mem_patchRect hph hpw i j, ?_⟩
    rintro r s ⟨h1, h2, h3, h4⟩
    constructor
    · exact (Nat.div_eq_of_lt_le h1 (by rw [Nat.succ_mul]; exact h2)).symm
    · exact (Nat.div_eq_of_lt_le h3 (by rw [Nat.succ_mul]; exact h4)).symm

/-- **C8 counterexample**: on an `8 × 8` input with `16 × 16` patches the
claim predicts an (empty) `0 × 0` grid, but the convolution raises a
RuntimeError (kernel larger than input). -/
theorem C8_counterexample_small_input :
    patchEmbedOutShape ⟨(224, 224), (16, 16), 3, 768⟩ 8 8
      = .error .runtimeError := rfl

/-- Witness for C8 at a concrete input: `224 × 224` input, `16 × 16`
patches. -/
theorem C8_patch_embedding_tiling_witness :
    patchEmbedOutShape ⟨(224, 224), (16, 16), 3, 768⟩ 224 224
        = .ok (224 / 16, 224 / 16)
    ∧ PatchEmbedCfg.num_patches ⟨(224, 224), (16, 16), 3, 768⟩
        = (224 / 16) * (224 / 16) :=
  ⟨(C8_patch_embedding_tiling 224 224 16 16 3 768 224 224 (by decide)
      (by decide) (by decide) (by decide)).1,
    (C8_patch_embedding_tiling 224 224 16 16 3 768 224 224 (by decide)
      (by decide) (by decide) (by decide)).2.1⟩

lemma interp1D_natCast (g : Nat → ℚ) (inS a : Nat) :
    interp1D g inS (a : ℚ) = g a := by
  simp [interp1D, Int.floor_natCast, Int.toNat_natCast, sub_self]

lemma srcCoord_true_self (inS a : Nat) (ha : a < inS) :
    srcCoord true inS inS a = (a : ℚ) := by
  unfold srcCoord
  rw [if_pos rfl]
  by_cases h1 : inS ≤ 1
  · rw [if_pos h1]
    have ha0 : a = 0 := by omega
    simp [ha0]
  · rw [if_neg h1]
    have hne : ((inS : ℚ) - 1) ≠ 0 := by
      have h2 : (1 : ℚ) < (inS : ℚ) := by exact_mod_cast (by omega : 1 < inS)
      intro hc
      rw [sub_eq_zero] at hc
      rw [← hc] at h2
      exact lt_irrefl _ h2
    rw [mul_div_assoc, div_self hne, mul_one]

/-- **C4**: for every example, `visual_embed` builds the positional
embedding by bilinearly interpolating (`align_corners=True`) the learned
spatial grid (`pos_embed` rows `1..`, reshaped `patch_dim × patch_dim`) to
the example's valid extent `(h, w) = (x_h, x_w)` and zero-padding to the
full patch grid; the class-token position receives `pos_embed` row 0, and
the positional sequence is added elementwise to the tokens after the class
token is concatenated.  (The second conjunct checks the interpolation is
the identity at the native extent.) -/
theorem C4_positional_embedding_resample
    (pe : Nat → Nat → ℚ) (pd h w W : Nat) (sel : List Nat)
    (tok : Nat → Nat → ℚ) :
    (∀ d r c, (r < h ∧ c < w →
        posEmbedGrid pe pd h w d r c
          = interpBilinear (spatialPos pe pd d) pd pd h w true r c)
      ∧ (¬(r < h ∧ c < w) → posEmbedGrid pe pd h w d r c = 0))
    ∧ (∀ d a b, a < pd → b < pd →
        interpBilinear (spatialPos pe pd d) pd pd pd pd true a b
          = pe (1 + (a * pd + b)) d)
    ∧ (∀ d, addPosEmbed tok (posSeq pe pd h w W sel) 0 d = tok 0 d + pe 0 d)
    ∧ (∀ d j, j < sel.length →
        addPosEmbed tok (posSeq pe pd h w W sel) (j + 1) d
          = tok (j + 1) d
            + posEmbedGrid pe pd h w d (sel.getD j 0 / W) (sel.getD j 0 % W)) := by
  refine ⟨?_, ?_, ?_, ?_⟩
  · intro d r c
    constructor
    · intro hin
      simp only [posEmbedGrid, padRB, if_pos hin]
    · intro hout
      simp only [posEmbedGrid, padRB, if_neg hout]
  · intro d a b hapd hbpd
    unfold interpBilinear
    rw [srcCoord_true_self pd a hapd, srcCoord_true_self pd b hbpd]
    simp only [interp1D_natCast]
    rfl
  · intro d
    simp [addPosEmbed, posSeq]
  · intro d j hj
    unfold addPosEmbed posSeq posEmbedFlat
    rw [if_neg (Nat.succ_ne_zero j), Nat.add_sub_cancel]

/-- Witness for C4 at concrete inputs (`patch_dim = 2`, extent `(1, 2)` in a
`2 × 2` grid, selected positions `[0, 1]`). -/
theorem C4_positional_embedding_resample_witness :
    posEmbedGrid (fun i d => (i : ℚ) + d) 2 1 2 0 0 0
      = interpBilinear (spatialPos (fun i d => (i : ℚ) + d) 2 0) 2 2 1 2 true 0 0
    ∧ posEmbedGrid (fun i d => (i : ℚ) + d) 2 1 2 0 1 1 = 0
    ∧ interpBilinear (spatialPos (fun i d => (i : ℚ) + d) 2 0) 2 2 2 2 true 1 1
      = (4 : ℚ)
    ∧ addPosEmbed (fun _ _ => 0) (posSeq (fun i d => (i : ℚ) + d) 2 1 2 2 [0, 1])
        0 0
      = (fun _ _ => (0 : ℚ)) 0 0 + (fun i d => ((i : ℚ) + d : ℚ)) 0 0 := by
  refine ⟨?_, ?_, ?_, ?_⟩
  · exact ((C4_positional_embedding_resample (fun i d => (i : ℚ) + d) 2 1 2 2
      [0, 1] (fun _ _ => 0)).1 0 0 0).1 (by decide)
  · exact ((C4_positional_embedding_resample (fun i d => (i : ℚ) + d) 2 1 2 2
      [0, 1] (fun _ _ => 0)).1 0 1 1).2 (by decide)
  · have h := (C4_positional_embedding_resample (fun i d => (i : ℚ) + d) 2 1 2 2
      [0, 1] (fun _ _ => 0)).2.1 0 1 1 (by decide) (by decide)
    rw [h]
    norm_num
  · exact (C4_positional_embedding_resample (fun i d => (i : ℚ) + d) 2 1 2 2
      [0, 1] (fun _ _ => 0)).2.2.1 0

/-- **C2** (code bug): `visual_embed(..., mask_it=True)` calls
`mask_tokens`, which always raises AttributeError at line 363
(`self.mask_token` is never assigned on the class), so the described label
tensor is never returned. -/
theorem C2_mask_tokens_attribute_error
    (img : Nat → Nat → Nat → ℚ) (ph pw ow : Nat) (mi : Nat → Bool) :
    maskTokensRun img ph pw ow mi = .error .attributeError := rfl

/-- **C3** (code bug): every registered factory call reaches
`default_cfgs[variant]` (line 581) and raises NameError, because
`default_cfgs` is not defined in the module; so no factory returns a
constructed model.  Additionally, the distilled model class is undefined
and the hybrid factories pass a keyword the constructor does not accept. -/
theorem C3_factory_registry_name_error :
    (∀ (pretrained distilled : Bool) (kwargKeys : List String),
      createVisionTransformerRun pretrained distilled kwargKeys
        = .error .nameError)
    ∧ "default_cfgs" ∉ moduleGlobals
    ∧ nameLookup "DistilledPerceiverVisionTransformer" = .error .nameError
    ∧ "hybrid_backbone" ∉ perceiverCtorParams
    ∧ "hybrid_backbone" ∈ ctorKeysOf
        ["embed_dim", "depth", "num_heads", "hybrid_backbone"] := by
  refine ⟨?_, by decide, rfl, by decide, by decide⟩
  intro pretrained distilled kwargKeys
  rfl

/-- **C10** (amended: for argument combinations that reach the
`pretrained` check — an *integer* `img_size`, a nonzero patch size, and a
head configuration whose blocks construct, i.e. `depth = 0` or
(`num_heads ≠ 0` and, when `qk_scale` is falsy, `embed_dim // num_heads ≠
0`).  A tuple `img_size` — allowed by the docstring — raises TypeError at
line 278, and `num_heads = 0` or a zero `head_dim` raise ZeroDivisionError
in `Attention.__init__` (lines 99-101), all before the `pretrained` check;
see the counterexample).  Constructing with `pretrained=True` raises
NotImplementedError before initialisation completes, and the factory path
never passes `pretrained` into the constructor while applying
pretrained-weight loading afterwards under the flag. -/
theorem C10_pretrained_raises_not_implemented
    (n patch_size in_chans embed_dim depth num_heads : Nat)
    (qk_scale : Option ℚ) (hp : patch_size ≠ 0)
    (hblk : depth = 0
      ∨ (num_heads ≠ 0
          ∧ (pyFalsy qk_scale = false ∨ embed_dim / num_heads ≠ 0))) :
    perceiverInit (Sum.inl n) patch_size in_chans embed_dim depth num_heads
        qk_scale true
      = .error .notImplementedError
    ∧ (∀ (pretrained : Bool) (ks : List String), "pretrained" ∉ ks →
        "pretrained" ∉ (factoryPlan pretrained ks).ctorKwargs
        ∧ (factoryPlan pretrained ks).loadsPretrainedAfter = pretrained) := by
  constructor
  · have hcfg : patchEmbedInit (Sum.inl n) (Sum.inl patch_size) in_chans
        embed_dim = .ok ⟨(n, n), (patch_size, patch_size), in_chans,
          embed_dim⟩ := by
      simp [patchEmbedInit, to_2tuple, hp]
    have hblocks : blocksInit embed_dim depth num_heads qk_scale
        = .ok () := by
      unfold blocksInit attentionInit
      rcases hblk with hd | ⟨hnh, hsc⟩
      · rw [if_pos hd]
      · by_cases hd : depth = 0
        · rw [if_pos hd]
        · rw [if_neg hd, if_neg hnh, if_neg]
          rintro ⟨hf, hz⟩
          rcases hsc with hsc | hsc
          · rw [hsc] at hf
            exact absurd hf (by simp)
          · exact hsc hz
    unfold perceiverInit
    rw [hcfg, hblocks]
    rfl
  · intro pretrained ks hks
    constructor
    · show "pretrained" ∉ ctorKeysOf ks
      unfold ctorKeysOf
      simp only [List.mem_cons, not_or]
      refine ⟨by decide, by decide, by decide, ?_⟩
      intro hmem
      exact hks (List.mem_of_mem_erase (List.mem_of_mem_erase
        (List.mem_of_mem_erase hmem)))
    · rfl

/-- **C10 counterexample**: with the docstring-sanctioned tuple `img_size`,
construction with `pretrained=True` raises TypeError (at
`img_size // patch_size`, line 278), not NotImplementedError, refuting the
"every argument combination" quantifier; `embed_dim = 0` (zero `head_dim`
with falsy `qk_scale`) and `num_heads = 0` similarly raise
ZeroDivisionError in `Attention.__init__` before the `pretrained` check. -/
theorem C10_counterexample_tuple_img_size :
    perceiverInit (Sum.inr (224, 224)) 16 3 768 12 12 none true
        = .error .typeError
    ∧ perceiverInit (Sum.inl 224) 16 3 0 12 12 none true
        = .error .zeroDivisionError
    ∧ perceiverInit (Sum.inl 224) 16 3 768 12 0 none true
        = .error .zeroDivisionError :=
  ⟨rfl, rfl, rfl⟩

example : perceiverInit (Sum.inl 224) 16 3 0 12 12 (some 1) true
    = .error .notImplementedError := by
  unfold perceiverInit blocksInit attentionInit pyFalsy
  norm_num [patchEmbedInit, to_2tuple]
  rfl

/-- Witness for C10 at a concrete input (`img_size = 224`,
`patch_size = 16`, and the kwargs of `vit_base_patch16_224`). -/
theorem C10_pretrained_raises_not_implemented_witness :
    perceiverInit (Sum.inl 224) 16 3 768 12 12 none true
      = .error .notImplementedError
    ∧ ("pretrained" ∉ (factoryPlan false
        ["patch_size", "embed_dim", "depth", "num_heads"]).ctorKwargs
      ∧ (factoryPlan false
        ["patch_size", "embed_dim", "depth", "num_heads"]).loadsPretrainedAfter
          = false) :=
  ⟨(C10_pretrained_raises_not_implemented 224 16 3 768 12 12 none (by decide)
      (by decide)).1,
    (C10_pretrained_raises_not_implemented 224 16 3 768 12 12 none (by decide)
      (by decide)).2 false
      ["patch_size", "embed_dim", "depth", "num_heads"] (by decide)⟩

/-- **C7**: `checkpoint_filter_fn` rewrites the `pos_embed` entry exactly
when its shape differs from the model's; the rewrite keeps the class-token
row unchanged and bilinearly interpolates the grid rows from the old square
grid of side `int(sqrt(old grid length))` to side
`gs_new = int(sqrt(new token count - 1))`, returning shape
`[1, gs_new*gs_new + 1, dim]`; all other entries pass through unchanged
except keys containing `patch_embed.proj.weight` of rank below 4, which are
reshaped to the model's convolution weight shape. -/
theorem C7_checkpoint_filter
    (mp mc : List Nat) :
    (∀ v : PTensor, v.shape ≠ mp →
      checkpointFilterEntry mp mc ("pos_embed", v)
        = ("pos_embed", resize_pos_embed v (mp.getD 1 0)))
    ∧ (∀ v : PTensor, v.shape = mp →
      checkpointFilterEntry mp mc ("pos_embed", v) = ("pos_embed", v))
    ∧ (∀ (k : String) (v : PTensor),
      ¬(containsSub "patch_embed.proj.weight" k = true ∧ v.shape.length < 4) →
      k ≠ "pos_embed" → checkpointFilterEntry mp mc (k, v) = (k, v))
    ∧ (∀ (k : String) (v : PTensor),
      containsSub "patch_embed.proj.weight" k = true → v.shape.length < 4 →
      checkpointFilterEntry mp mc (k, v) = (k, reshapeConvWeight v mc))
    ∧ (∀ (v : PTensor) (O I Hk Wk : Nat), 0 < O → 0 < Hk → 0 < Wk →
      v.shape.prod = O * I * Hk * Wk →
      (reshapeConvWeight v [O, I, Hk, Wk]).shape = [O, I, Hk, Wk])
    ∧ (∀ (v : PTensor) (ntokNew d : Nat),
      (resize_pos_embed v ntokNew).shape
        = [1, Nat.sqrt (ntokNew - 1) * Nat.sqrt (ntokNew - 1) + 1,
            v.shape.getD 2 0]
      ∧ (resize_pos_embed v ntokNew).entry [0, 0, d] = v.entry [0, 0, d]
      ∧ ∀ i : Nat, (resize_pos_embed v ntokNew).entry [0, 1 + i, d]
          = interpBilinear
              (fun a b => v.entry
                [0, 1 + (a * Nat.sqrt (v.shape.getD 1 0 - 1) + b), d])
              (Nat.sqrt (v.shape.getD 1 0 - 1))
              (Nat.sqrt (v.shape.getD 1 0 - 1))
              (Nat.sqrt (ntokNew - 1)) (Nat.sqrt (ntokNew - 1)) false
              (i / Nat.sqrt (ntokNew - 1)) (i % Nat.sqrt (ntokNew - 1))) := by
  have hnc : containsSub "patch_embed.proj.weight" "pos_embed" = false := by
    decide
  refine ⟨?_, ?_, ?_, ?_, ?_, ?_⟩
  · intro v hne
    unfold checkpointFilterEntry
    rw [if_neg, if_pos ⟨rfl, hne⟩]
    rintro ⟨hc, _⟩
    rw [hnc] at hc
    exact absurd hc (by decide)
  · intro v heq
    unfold checkpointFilterEntry
    rw [if_neg, if_neg]
    · rintro ⟨_, hne⟩
      exact hne heq
    · rintro ⟨hc, _⟩
      rw [hnc] at hc
      exact absurd hc (by decide)
  · intro k v hn hne
    unfold checkpointFilterEntry
    rw [if_neg hn, if_neg]
    rintro ⟨hk, _⟩
    exact hne hk
  · intro k v hc hlt
    unfold checkpointFilterEntry
    rw [if_pos ⟨hc, hlt⟩]
  · intro v O I Hk Wk hO hH hW hprod
    have hpos : 0 < O * Hk * Wk := by positivity
    have hdiv : (O * I * Hk * Wk) / (O * Hk * Wk) = I := by
      have hre : O * I * Hk * Wk = (O * Hk * Wk) * I := by ring
      rw [hre, Nat.mul_div_cancel_left I hpos]
    simp only [reshapeConvWeight, reshapeT, List.getD_cons_zero,
      List.getD_cons_succ]
    rw [hprod, hdiv]
  · intro v ntokNew d
    refine ⟨rfl, rfl, ?_⟩
    intro i
    have h0 : ¬(1 + i = 0) := by omega
    simp only [resize_pos_embed, h0, if_false, Nat.add_sub_cancel_left]

/-- Witness for C7 at concrete inputs: model `pos_embed` shape `[1, 5, 2]`,
model conv shape `[4, 3, 2, 2]`, checkpoint `pos_embed` of shape
`[1, 10, 2]` (old grid 3×3), rank-2 projection weight of shape `[4, 12]`. -/
theorem C7_checkpoint_filter_witness :
    checkpointFilterEntry [1, 5, 2] [4, 3, 2, 2]
        ("pos_embed", ⟨[1, 10, 2], fun _ => 0⟩)
      = ("pos_embed", resize_pos_embed ⟨[1, 10, 2], fun _ => 0⟩
          (([1, 5, 2] : List Nat).getD 1 0))
    ∧ checkpointFilterEntry [1, 5, 2] [4, 3, 2, 2]
        ("head.weight", ⟨[1000, 768], fun _ => 0⟩)
      = ("head.weight", ⟨[1000, 768], fun _ => 0⟩)
    ∧ checkpointFilterEntry [1, 5, 2] [4, 3, 2, 2]
        ("patch_embed.proj.weight", ⟨[4, 12], fun _ => 0⟩)
      = ("patch_embed.proj.weight",
          reshapeConvWeight ⟨[4, 12], fun _ => 0⟩ [4, 3, 2, 2])
    ∧ (reshapeConvWeight ⟨[4, 12], fun _ => 0⟩ [4, 3, 2, 2]).shape
        = [4, 3, 2, 2]
    ∧ (resize_pos_embed (⟨[1, 10, 2], fun _ => 0⟩ : PTensor) 5).shape
        = [1, Nat.sqrt (5 - 1) * Nat.sqrt (5 - 1) + 1,
            ([1, 10, 2] : List Nat).getD 2 0] :=
  ⟨(C7_checkpoint_filter [1, 5, 2] [4, 3, 2, 2]).1 ⟨[1, 10, 2], fun _ => 0⟩
      (by decide),
    (C7_checkpoint_filter [1, 5, 2] [4, 3, 2, 2]).2.2.1 "head.weight"
      ⟨[1000, 768], fun _ => 0⟩ (by rintro ⟨hc, _⟩; exact absurd hc (by decide))
      (by decide),
    (C7_checkpoint_filter [1, 5, 2] [4, 3, 2, 2]).2.2.2.1
      "patch_embed.proj.weight" ⟨[4, 12], fun _ => 0⟩ (by decide) (by decide),
    (C7_checkpoint_filter [1, 5, 2] [4, 3, 2, 2]).2.2.2.2.1
      ⟨[4, 12], fun _ => 0⟩ 4 3 2 2 (by decide) (by decide) (by decide)
      (by decide),
    ((C7_checkpoint_filter [1, 5, 2] [4, 3, 2, 2]).2.2.2.2.2
      ⟨[1, 10, 2], fun _ => 0⟩ 5 0).1⟩
